import Mathlib

/-!
# A shallow embedding of `react-granular-store`

This file embeds the `Store` class of `src/package/index.ts` (and the
seeding expression of the `useStoreValue` hook) as executable Lean
definitions, and proves the repository's specified properties about them.

Modelling conventions, chosen to mirror the JavaScript runtime:

* A store over key type `κ`, value type `α` and callback-identity type `γ`.
  Callbacks are opaque side-effecting functions in the source, so the
  embedding tracks them by identity (`γ` with decidable equality, mirroring
  the reference identity that `Set` uses) and records each invocation
  `callback(newValue)` as an event `(key, callback, newValue)` in a trace.
* `state` is the total read function of the backing object: reading an
  absent property yields the type's absent value, so the committed state
  is a function `κ → α` (instantiated at `α := Option β` when the
  absent/`undefined` value matters, with `none` playing `undefined`).
* The private `_deferredState : Map` is an association list with the exact
  `Map` semantics used by the source: `set` overwrites in place keeping
  the original insertion position, otherwise appends; `forEach` iterates
  in insertion order; keys are unique (`mapKeysNodup` is the
  representation invariant every real `Map` satisfies).
* `callbacks` is the total read function of the listener registry object,
  an absent entry reading as the empty set; a `Set<(newValue) => void>`
  is a duplicate-free list in insertion order, and `Set.prototype.add` /
  `Set.prototype.delete` become append-if-absent / remove-the-occurrence.
* The `setTimeout` body scheduled by `_flagDeferredStateForResolution`
  is exposed as the explicit step `Store.flush`; `_awaitingUpdate` is the
  scheduling flag exactly as in the source.
-/

namespace GranularStore

/-- One listener invocation: the callback `e.2.1`, registered for key `e.1`,
was called with new value `e.2.2`. These events are the trace of the
`callback(newValue)` calls performed by `Store._setState`. -/
abbrev Event (κ α γ : Type) : Type := κ × γ × α

/-- JavaScript `Map.prototype.get`/`has`, on the association-list model:
return the value at the first (by the representation invariant: only)
entry for `k`, or `none` when `k` is absent. -/
def mapLookup {κ α : Type} [DecidableEq κ] : List (κ × α) → κ → Option α
  | [], _ => none
  | kv :: rest, k => if kv.1 = k then some kv.2 else mapLookup rest k

/-- JavaScript `Map.prototype.set`: overwrite the entry for `k` in place
(keeping its insertion position) when present, otherwise append `(k, v)`. -/
def mapSet {κ α : Type} [DecidableEq κ] : List (κ × α) → κ → α → List (κ × α)
  | [], k, v => [(k, v)]
  | kv :: rest, k, v => if kv.1 = k then (k, v) :: rest else kv :: mapSet rest k v

/-- The key sequence of an association list (a `Map`'s iteration keys). -/
def mapKeys {κ α : Type} (m : List (κ × α)) : List κ := m.map Prod.fst

/-- JavaScript `Set.prototype.delete` on the duplicate-free-list model of a
`Set`: remove the occurrence of `c`, if any. -/
def setDelete {γ : Type} [DecidableEq γ] : List γ → γ → List γ
  | [], _ => []
  | x :: rest, c => if x = c then rest else x :: setDelete rest c

/-- JavaScript `Set.prototype.add`: append `c` unless already present
(reference-identity de-duplication). -/
def setAdd {γ : Type} [DecidableEq γ] (l : List γ) (c : γ) : List γ :=
  if c ∈ l then l else l ++ [c]

/-- The resolved options of a store (`Required<StoreOptions<State>>`):
the consumer-configurable equality check and the batching flag. -/
structure StoreOptions (κ α : Type) where
  equalityFn : α → α → κ → Bool
  batchUpdates : Bool

/-- The optional options argument of the `Store` constructor
(`StoreOptions<State>`, both properties optional). -/
structure StoreOptionsArg (κ α : Type) where
  equalityFn : Option (α → α → κ → Bool) := none
  batchUpdates : Option Bool := none

/-- The default equality check of `defaultOptions`:
`(oldValue, newValue) => oldValue === newValue`, with Lean's decidable
equality standing for `===` on the modelled value domain. -/
def defaultEqualityFn {κ α : Type} [DecidableEq α] : α → α → κ → Bool :=
  fun oldValue newValue _ => decide (oldValue = newValue)

/-- The `Store<State>` class: committed state, resolved options, per-key
listener sets, and the private batching fields `_deferredState` and
`_awaitingUpdate`. -/
structure Store (κ α γ : Type) where
  state : κ → α
  options : StoreOptions κ α
  callbacks : κ → List γ
  _deferredState : List (κ × α)
  _awaitingUpdate : Bool

/-- `SetStateArgument<T> = T | ((prev: T) => T)`, the source's
value-or-updater union; the constructor tag plays the runtime
`typeof newValue === 'function'` test. -/
inductive SetStateArgument (α : Type) where
  | literal (v : α)
  | updater (f : α → α)

variable {κ α γ : Type}

/-- The `Store` constructor: `state = defaultValues`, options merged over
`defaultOptions`, empty listener registry, empty deferred map, no pending
flush. -/
def Store.new [DecidableEq α] (defaultValues : κ → α) (options : StoreOptionsArg κ α) :
    Store κ α γ :=
  { state := defaultValues
    options :=
      { equalityFn := options.equalityFn.getD defaultEqualityFn
        batchUpdates := options.batchUpdates.getD false }
    callbacks := fun _ => []
    _deferredState := []
    _awaitingUpdate := false }

/-- A `Store` constructed from a finite `defaultValues` object given as an
association list: a key absent from the object reads as `undefined`
(`none`). -/
def Store.fromDefaults [DecidableEq κ] [DecidableEq β] (defaultValues : List (κ × β))
    (options : StoreOptionsArg κ (Option β)) : Store κ (Option β) γ :=
  Store.new (fun k => mapLookup defaultValues k) options

/-- `Store.getState`: the deferred value when one is pending for `key`
(`_deferredState.has(key)`), otherwise the committed value. -/
def Store.getState [DecidableEq κ] (s : Store κ α γ) (key : κ) : α :=
  match mapLookup s._deferredState key with
  | some v => v
  | none => s.state key

/-- `Store._setState`, the commit-and-notify core: skip when
`options.equalityFn(oldValue, newValue, key)` holds, otherwise write the
committed value and invoke every callback registered for `key` with the
new value. Returns the updated store and the invocation trace. -/
def Store._setState [DecidableEq κ] (s : Store κ α γ) (key : κ) (newValue : α) :
    Store κ α γ × List (Event κ α γ) :=
  if s.options.equalityFn (s.state key) newValue key then (s, [])
  else
    ({ s with state := fun k => if k = key then newValue else s.state k },
      (s.callbacks key).map (fun c => (key, c, newValue)))

/-- `Store._resolveNewValue`: a callable argument is applied to the current
logical value `getState(key)` (deferred-aware); a literal is used directly. -/
def Store._resolveNewValue [DecidableEq κ] (s : Store κ α γ) (key : κ)
    (newValue : SetStateArgument α) : α :=
  match newValue with
  | .updater f => f (s.getState key)
  | .literal v => v

/-- `Store._flagDeferredStateForResolution`: schedule (at most) one flush;
a no-op when one is already pending. The scheduled `setTimeout` body itself
is the explicit step `Store.flush`. -/
def Store._flagDeferredStateForResolution (s : Store κ α γ) : Store κ α γ :=
  if s._awaitingUpdate then s else { s with _awaitingUpdate := true }

/-- `Store.setState`: resolve the argument, then either defer the write
(batched mode) or commit it immediately. Batched deferral invokes no
callback. -/
def Store.setState [DecidableEq κ] (s : Store κ α γ) (key : κ)
    (newValue : SetStateArgument α) : Store κ α γ × List (Event κ α γ) :=
  let resolvedValue := s._resolveNewValue key newValue
  if s.options.batchUpdates then
    (({ s with _deferredState := mapSet s._deferredState key resolvedValue
      })._flagDeferredStateForResolution, [])
  else
    s._setState key resolvedValue

/-- `Store.on`: add `callback` to `key`'s listener set (creating the set
when absent; `Set.prototype.add` de-duplicates by identity). -/
def Store.on [DecidableEq κ] [DecidableEq γ] (s : Store κ α γ) (key : κ) (callback : γ) :
    Store κ α γ :=
  { s with callbacks := fun k => if k = key then setAdd (s.callbacks key) callback
      else s.callbacks k }

/-- `Store.off`: remove `callback` from `key`'s listener set by identity;
nothing happens when it is not present. -/
def Store.off [DecidableEq κ] [DecidableEq γ] (s : Store κ α γ) (key : κ) (callback : γ) :
    Store κ α γ :=
  { s with callbacks := fun k => if k = key then setDelete (s.callbacks key) callback
      else s.callbacks k }

/-- `Store.subscribe`: register the callback and return the unsubscribe
closure `() => this.off(key, callback)` (modelled as the store transformer
it performs when invoked). -/
def Store.subscribe [DecidableEq κ] [DecidableEq γ] (s : Store κ α γ) (key : κ)
    (callback : γ) : Store κ α γ × (Store κ α γ → Store κ α γ) :=
  (s.on key callback, fun s2 => s2.off key callback)

/-- The `forEach` loop of `Store._resolveDeferredState`: commit the listed
entries in insertion order through `_setState`, concatenating the traces. -/
def resolveFold [DecidableEq κ] : Store κ α γ → List (κ × α) →
    Store κ α γ × List (Event κ α γ)
  | s, [] => (s, [])
  | s, kv :: rest =>
    let r := s._setState kv.1 kv.2
    let r2 := resolveFold r.1 rest
    (r2.1, r.2 ++ r2.2)

/-- `Store._resolveDeferredState`: replay every deferred entry through the
commit core, then clear the deferred map. -/
def Store._resolveDeferredState [DecidableEq κ] (s : Store κ α γ) :
    Store κ α γ × List (Event κ α γ) :=
  let r := resolveFold s s._deferredState
  ({ r.1 with _deferredState := [] }, r.2)

/-- The body of the `setTimeout` scheduled by
`_flagDeferredStateForResolution`: resolve the deferred state and lower the
scheduling flag. -/
def Store.flush [DecidableEq κ] (s : Store κ α γ) : Store κ α γ × List (Event κ α γ) :=
  let r := s._resolveDeferredState
  ({ r.1 with _awaitingUpdate := false }, r.2)

/-- An externally triggered store step: a `setState` call or the scheduled
flush firing. (`on`/`off` are deliberately absent: this is the alphabet of
"subsequent `setState` activity" that the properties below quantify over.) -/
inductive Op (κ α : Type) where
  | set (key : κ) (arg : SetStateArgument α)
  | flush

/-- Run a sequence of steps, concatenating the invocation traces. -/
def Store.runOps [DecidableEq κ] : Store κ α γ → List (Op κ α) →
    Store κ α γ × List (Event κ α γ)
  | s, [] => (s, [])
  | s, op :: rest =>
    let r := match op with
      | .set k a => s.setState k a
      | .flush => s.flush
    let r2 := r.1.runOps rest
    (r2.1, r.2 ++ r2.2)

/-- Whether a step writes to `key`. -/
def opTouches [DecidableEq κ] (key : κ) : Op κ α → Bool
  | .set k _ => decide (k = key)
  | .flush => false

/-- Occurrence count of `a` in a list (used to state "invoked exactly
once"). -/
def countOcc {δ : Type} [DecidableEq δ] (a : δ) : List δ → Nat
  | [] => 0
  | x :: rest => (if x = a then 1 else 0) + countOcc a rest

/-- A JavaScript value domain in which `undefined` and `null` are distinct,
as needed to model the hooks' null-coalescing seed. -/
inductive JSVal where
  | undefined
  | null
  | num (n : Int)
deriving DecidableEq

/-- JavaScript nullishness: `undefined` and `null` are the nullish values. -/
def isNullish : JSVal → Bool
  | .undefined => true
  | .null => true
  | .num _ => false

/-- The initial local render state of `useStoreValue`:
`useState(store?.getState(key) ?? null)`. A null store optional-chains to
`undefined`, and `?? null` collapses a nullish read to the `null` sentinel. -/
def useStoreValueInitial {κ γ : Type} [DecidableEq κ]
    (store : Option (Store κ JSVal γ)) (key : κ) : JSVal :=
  match store with
  | none => JSVal.null
  | some st =>
    let v := st.getState key
    if isNullish v then JSVal.null else v

/-- A concrete immediate-mode store: `new Store({0: 0, 1: 0, ...})` over
numeric keys and values, with callback `7` registered for key `0`. Callback
identities are numbers. -/
def sampleImmediate : Store Nat Nat Nat :=
  (Store.new (fun _ => 0) ⟨none, none⟩).on 0 7

/-- A concrete batched-mode store (`batchUpdates: true`), values all `0`,
callback `7` registered for key `0`. -/
def sampleBatched : Store Nat Nat Nat :=
  (Store.new (fun _ => 0) ⟨none, some true⟩).on 0 7

/-- `sampleBatched` after `setState(0, 5)`: a batched store with a pending
deferred write `0 ↦ 5`. -/
def sampleBatchedPending : Store Nat Nat Nat :=
  (sampleBatched.setState 0 (SetStateArgument.literal 5)).1

/-- A concrete batched store over integer values with the default equality
function. -/
def sampleBatchedInt : Store Nat Int Nat :=
  Store.new (fun _ => 0) ⟨none, some true⟩

/-- A batched store whose configured equality function judges every pair of
values equal (a legal `StoreOptions.equalityFn`). -/
def sampleCoarse : Store Nat Nat Nat :=
  Store.new (fun _ => 0) ⟨some (fun _ _ _ => true), some true⟩

/-- An immediate-mode store in which callback `7` is registered for key `1`
(in addition to whatever key `0` subscriptions are made later). -/
def c6Base : Store Nat Nat Nat :=
  (Store.new (fun _ => 0) ⟨none, none⟩).on 1 7

/-- `c6Base` after `subscribe(0, 7)` and one call of the returned
unsubscribe function: callback `7` is no longer registered for key `0`, but
its independent registration for key `1` remains. -/
def c6After : Store Nat Nat Nat :=
  (c6Base.subscribe 0 7).2 (c6Base.subscribe 0 7).1

/-- A store over the `JSVal` domain whose every key holds `undefined`
(e.g. a fresh `RecordStore` before any item is added). -/
def sampleJS : Store Nat JSVal Nat :=
  Store.new (fun _ => JSVal.undefined) ⟨none, none⟩

/-! ## Lemmas about the `Map`/`Set` models -/

theorem mapLookup_mapSet_self [DecidableEq κ] (m : List (κ × α)) (k : κ) (v : α) :
    mapLookup (mapSet m k v) k = some v := by
  induction m with
  | nil => simp [mapSet, mapLookup]
  | cons kv rest ih =>
    by_cases h : kv.1 = k
    · simp [mapSet, h, mapLookup]
    · simp [mapSet, h, mapLookup, ih]

theorem mapLookup_mapSet_ne [DecidableEq κ] (m : List (κ × α)) (k k' : κ) (v : α)
    (h : k' ≠ k) : mapLookup (mapSet m k v) k' = mapLookup m k' := by
  induction m with
  | nil =>
    have h1 : ¬ k = k' := fun hh => h hh.symm
    simp [mapSet, mapLookup, h1]
  | cons kv rest ih =>
    by_cases hkv : kv.1 = k
    · subst hkv
      have h1 : ¬ kv.1 = k' := fun hh => h hh.symm
      simp [mapSet, mapLookup, h1]
    · simp [mapSet, hkv, mapLookup, ih]

theorem mapSet_eq_self_of_lookup [DecidableEq κ] (m : List (κ × α)) (k : κ) (v : α)
    (h : mapLookup m k = some v) : mapSet m k v = m := by
  induction m with
  | nil => simp [mapLookup] at h
  | cons kv rest ih =>
    by_cases hkv : kv.1 = k
    · simp [mapLookup, hkv] at h
      subst h
      simp [mapSet, hkv]
      exact Prod.ext hkv.symm rfl
    · simp [mapLookup, hkv] at h
      simp [mapSet, hkv, ih h]

theorem mapLookup_eq_none_iff [DecidableEq κ] (m : List (κ × α)) (k : κ) :
    mapLookup m k = none ↔ k ∉ mapKeys m := by
  induction m with
  | nil => simp [mapLookup, mapKeys]
  | cons kv rest ih =>
    by_cases hkv : kv.1 = k
    · simp [mapLookup, hkv, mapKeys]
    · simp [mapLookup, hkv, mapKeys, Ne.symm hkv] at ih ⊢
      exact ih

theorem mapKeys_cons (kv : κ × α) (rest : List (κ × α)) :
    mapKeys (kv :: rest) = kv.1 :: mapKeys rest := rfl

theorem mapSet_eq_append_of_not_mem [DecidableEq κ] (m : List (κ × α)) (k : κ) (v : α)
    (h : k ∉ mapKeys m) : mapSet m k v = m ++ [(k, v)] := by
  induction m with
  | nil => simp [mapSet]
  | cons kv rest ih =>
    rw [mapKeys_cons] at h
    simp at h
    have h1 : ¬ kv.1 = k := fun hh => h.1 hh.symm
    simp [mapSet, h1, ih h.2]

theorem mapKeys_mapSet [DecidableEq κ] (m : List (κ × α)) (k : κ) (v : α) :
    mapKeys (mapSet m k v) =
      if k ∈ mapKeys m then mapKeys m else mapKeys m ++ [k] := by
  induction m with
  | nil => simp [mapSet, mapKeys]
  | cons kv rest ih =>
    by_cases hkv : kv.1 = k
    · subst hkv
      simp [mapSet, mapKeys_cons]
    · have h1 : ¬ k = kv.1 := fun hh => hkv hh.symm
      by_cases hk : k ∈ mapKeys rest
      · simp [mapSet, hkv, mapKeys_cons, ih, hk, h1]
      · simp [mapSet, hkv, mapKeys_cons, ih, hk, h1]

theorem mapKeys_mapSet_nodup [DecidableEq κ] (m : List (κ × α)) (k : κ) (v : α)
    (h : (mapKeys m).Nodup) : (mapKeys (mapSet m k v)).Nodup := by
  rw [mapKeys_mapSet]
  by_cases hk : k ∈ mapKeys m
  · simpa [hk] using h
  · simp [hk, List.nodup_append, h]

theorem setDelete_of_not_mem [DecidableEq γ] (l : List γ) (c : γ) (h : c ∉ l) :
    setDelete l c = l := by
  induction l with
  | nil => simp [setDelete]
  | cons x rest ih =>
    simp at h
    have h1 : ¬ x = c := fun hh => h.1 hh.symm
    simp [setDelete, h1, ih h.2]

theorem not_mem_setDelete [DecidableEq γ] (l : List γ) (c : γ) (h : l.Nodup) :
    c ∉ setDelete l c := by
  induction l with
  | nil => simp [setDelete]
  | cons x rest ih =>
    simp at h
    by_cases hx : x = c
    · subst hx
      simp [setDelete, h.1]
    · simp [setDelete, hx]
      exact ⟨fun he => hx he.symm, ih h.2⟩

theorem mem_of_mem_setDelete [DecidableEq γ] (l : List γ) (c x : γ)
    (h : x ∈ setDelete l c) : x ∈ l := by
  induction l with
  | nil => simp [setDelete] at h
  | cons y rest ih =>
    by_cases hy : y = c
    · subst hy
      simp [setDelete] at h
      simp [h]
    · simp [setDelete, hy] at h
      rcases h with h | h
      · simp [h]
      · simp [ih h]

theorem nodup_setDelete [DecidableEq γ] (l : List γ) (c : γ) (h : l.Nodup) :
    (setDelete l c).Nodup := by
  induction l with
  | nil => simp [setDelete]
  | cons x rest ih =>
    simp at h
    by_cases hx : x = c
    · simpa [setDelete, hx] using h.2
    · simp [setDelete, hx]
      exact ⟨fun hmem => h.1 (mem_of_mem_setDelete rest c x hmem), ih h.2⟩

theorem mem_setAdd_self [DecidableEq γ] (l : List γ) (c : γ) : c ∈ setAdd l c := by
  by_cases h : c ∈ l <;> simp [setAdd, h]

theorem nodup_setAdd [DecidableEq γ] (l : List γ) (c : γ) (h : l.Nodup) :
    (setAdd l c).Nodup := by
  by_cases hc : c ∈ l
  · simpa [setAdd, hc] using h
  · simp [setAdd, hc, List.nodup_append, h]

theorem setAdd_idem [DecidableEq γ] (l : List γ) (c : γ) :
    setAdd (setAdd l c) c = setAdd l c := by
  by_cases hc : c ∈ l
  · simp [setAdd, hc]
  · simp [setAdd, hc]

theorem countOcc_eq_zero_of_not_mem {δ : Type} [DecidableEq δ] (a : δ) (l : List δ)
    (h : a ∉ l) : countOcc a l = 0 := by
  induction l with
  | nil => simp [countOcc]
  | cons x rest ih =>
    simp at h
    have h1 : ¬ x = a := fun hh => h.1 hh.symm
    simp [countOcc, h1, ih h.2]

theorem countOcc_eq_one_of_nodup_of_mem {δ : Type} [DecidableEq δ] (a : δ) (l : List δ)
    (hnd : l.Nodup) (hm : a ∈ l) : countOcc a l = 1 := by
  induction l with
  | nil => simp at hm
  | cons x rest ih =>
    simp at hm hnd
    by_cases hx : x = a
    · subst hx
      simp [countOcc, countOcc_eq_zero_of_not_mem x rest hnd.1]
    · rcases hm with hm | hm
      · exact absurd hm.symm hx
      · simp [countOcc, hx, ih hnd.2 hm]

theorem countOcc_filter {δ : Type} [DecidableEq δ] (p : δ → Bool) (a : δ) (l : List δ)
    (h : p a = true) : countOcc a (l.filter p) = countOcc a l := by
  induction l with
  | nil => simp [countOcc]
  | cons x rest ih =>
    by_cases hp : p x = true
    · simp [List.filter_cons, hp, countOcc, ih]
    · have hxa : x ≠ a := fun he => hp (he ▸ h)
      simp [List.filter_cons, hp, countOcc, hxa, ih]

theorem countOcc_map_inj {δ ε : Type} [DecidableEq δ] [DecidableEq ε] (f : δ → ε)
    (hf : Function.Injective f) (a : δ) (l : List δ) :
    countOcc (f a) (l.map f) = countOcc a l := by
  induction l with
  | nil => simp [countOcc]
  | cons x rest ih =>
    by_cases hx : x = a
    · simp [countOcc, hx, ih]
    · have : f x ≠ f a := fun he => hx (hf he)
      simp [countOcc, hx, this, ih]

/-! ## Structural lemmas about the store operations -/

theorem setStateCore_callbacks [DecidableEq κ] (s : Store κ α γ) (k : κ) (v : α) :
    (s._setState k v).1.callbacks = s.callbacks := by
  cases hc : s.options.equalityFn (s.state k) v k <;> simp [Store._setState, hc]

theorem setStateCore_options [DecidableEq κ] (s : Store κ α γ) (k : κ) (v : α) :
    (s._setState k v).1.options = s.options := by
  cases hc : s.options.equalityFn (s.state k) v k <;> simp [Store._setState, hc]

theorem setStateCore_deferred [DecidableEq κ] (s : Store κ α γ) (k : κ) (v : α) :
    (s._setState k v).1._deferredState = s._deferredState := by
  cases hc : s.options.equalityFn (s.state k) v k <;> simp [Store._setState, hc]

theorem setStateCore_awaiting [DecidableEq κ] (s : Store κ α γ) (k : κ) (v : α) :
    (s._setState k v).1._awaitingUpdate = s._awaitingUpdate := by
  cases hc : s.options.equalityFn (s.state k) v k <;> simp [Store._setState, hc]

theorem setStateCore_state_ne [DecidableEq κ] (s : Store κ α γ) (k k' : κ) (v : α)
    (h : k' ≠ k) : (s._setState k v).1.state k' = s.state k' := by
  cases hc : s.options.equalityFn (s.state k) v k <;> simp [Store._setState, hc, h]

theorem setStateCore_state_self [DecidableEq κ] (s : Store κ α γ) (k : κ) (v : α) :
    (s._setState k v).1.state k =
      if s.options.equalityFn (s.state k) v k then s.state k else v := by
  cases hc : s.options.equalityFn (s.state k) v k <;> simp [Store._setState, hc]

theorem setStateCore_trace [DecidableEq κ] (s : Store κ α γ) (k : κ) (v : α) :
    (s._setState k v).2 =
      if s.options.equalityFn (s.state k) v k then []
      else (s.callbacks k).map (fun c => (k, c, v)) := by
  cases hc : s.options.equalityFn (s.state k) v k <;> simp [Store._setState, hc]

theorem setStateCore_trace_mem [DecidableEq κ] (s : Store κ α γ) (k k' : κ) (c : γ)
    (v v' : α) : (k', c, v') ∈ (s._setState k v).2 ↔
      k' = k ∧ c ∈ s.callbacks k ∧ v' = v ∧
        s.options.equalityFn (s.state k) v k = false := by
  rw [setStateCore_trace]
  cases hc : s.options.equalityFn (s.state k) v k
  · simp [List.mem_map]
    constructor
    · rintro ⟨c', hc', he⟩
      rcases he with ⟨h1, h2, h3⟩
      exact ⟨h1.symm, h2 ▸ hc', h3.symm⟩
    · rintro ⟨h1, h2, h3⟩
      exact ⟨c, h2, h1.symm, rfl, h3.symm⟩
  · simp

theorem setStateCore_awaiting_comm [DecidableEq κ] (s : Store κ α γ) (k : κ) (v : α)
    (b : Bool) : ({ s with _awaitingUpdate := b } : Store κ α γ)._setState k v =
      ({ (s._setState k v).1 with _awaitingUpdate := b }, (s._setState k v).2) := by
  cases hc : s.options.equalityFn (s.state k) v k <;> simp [Store._setState, hc]

theorem resolveFold_callbacks [DecidableEq κ] (m : List (κ × α)) (s : Store κ α γ) :
    (resolveFold s m).1.callbacks = s.callbacks := by
  induction m generalizing s with
  | nil => rfl
  | cons kv rest ih => simp [resolveFold, ih, setStateCore_callbacks]

theorem resolveFold_options [DecidableEq κ] (m : List (κ × α)) (s : Store κ α γ) :
    (resolveFold s m).1.options = s.options := by
  induction m generalizing s with
  | nil => rfl
  | cons kv rest ih => simp [resolveFold, ih, setStateCore_options]

theorem resolveFold_deferred [DecidableEq κ] (m : List (κ × α)) (s : Store κ α γ) :
    (resolveFold s m).1._deferredState = s._deferredState := by
  induction m generalizing s with
  | nil => rfl
  | cons kv rest ih => simp [resolveFold, ih, setStateCore_deferred]

theorem resolveFold_state_not_mem [DecidableEq κ] (m : List (κ × α)) (s : Store κ α γ)
    (k : κ) (h : k ∉ mapKeys m) : (resolveFold s m).1.state k = s.state k := by
  induction m generalizing s with
  | nil => rfl
  | cons kv rest ih =>
    rw [mapKeys_cons] at h
    simp at h
    simp [resolveFold, ih _ h.2, setStateCore_state_ne _ _ _ _ (fun hh => h.1 hh)]

theorem resolveFold_trace_mem [DecidableEq κ] (m : List (κ × α)) (s : Store κ α γ)
    (k : κ) (c : γ) (v : α) (h : (k, c, v) ∈ (resolveFold s m).2) :
    c ∈ s.callbacks k := by
  induction m generalizing s with
  | nil => simp [resolveFold] at h
  | cons kv rest ih =>
    simp [resolveFold] at h
    rcases h with h | h
    · have hh := (setStateCore_trace_mem s kv.1 k c kv.2 v).1 h
      rw [hh.1]
      exact hh.2.1
    · have := ih _ h
      rwa [setStateCore_callbacks] at this

theorem resolveFold_append [DecidableEq κ] (m1 m2 : List (κ × α)) (s : Store κ α γ) :
    resolveFold s (m1 ++ m2) =
      ((resolveFold (resolveFold s m1).1 m2).1,
        (resolveFold s m1).2 ++ (resolveFold (resolveFold s m1).1 m2).2) := by
  induction m1 generalizing s with
  | nil => simp [resolveFold]
  | cons kv rest ih => simp [resolveFold, ih, List.append_assoc]

theorem resolveFold_awaiting_comm [DecidableEq κ] (m : List (κ × α)) (s : Store κ α γ)
    (b : Bool) : resolveFold ({ s with _awaitingUpdate := b }) m =
      ({ (resolveFold s m).1 with _awaitingUpdate := b }, (resolveFold s m).2) := by
  induction m generalizing s with
  | nil => rfl
  | cons kv rest ih =>
    simp [resolveFold, setStateCore_awaiting_comm, ih]

theorem setStateCore_trace_filter_ne [DecidableEq κ] (s : Store κ α γ) (k K : κ)
    (v : α) (h : ¬ k = K) :
    ((s._setState k v).2.filter (fun e => decide (e.1 = K))) = [] := by
  rw [List.filter_eq_nil_iff]
  intro e he
  rcases e with ⟨ek, ec, ev⟩
  have h1 := ((setStateCore_trace_mem s k ek ec v ev).1 he).1
  simp [h1, h]

theorem resolveFold_trace_filter_none [DecidableEq κ] (m : List (κ × α))
    (s : Store κ α γ) (K : κ) (hK : mapLookup m K = none) :
    ((resolveFold s m).2.filter (fun e => decide (e.1 = K))) = [] := by
  induction m generalizing s with
  | nil => simp [resolveFold]
  | cons kv rest ih =>
    rw [mapLookup] at hK
    by_cases hkv : kv.1 = K
    · simp [hkv] at hK
    · rw [if_neg hkv] at hK
      simp only [resolveFold, List.filter_append]
      rw [setStateCore_trace_filter_ne s kv.1 K kv.2 hkv, ih _ hK]
      rfl

theorem resolveFold_trace_filter_some [DecidableEq κ] (m : List (κ × α))
    (s : Store κ α γ) (K : κ) (b : α) (hnd : (mapKeys m).Nodup)
    (hK : mapLookup m K = some b) :
    ((resolveFold s m).2.filter (fun e => decide (e.1 = K))) =
      (if s.options.equalityFn (s.state K) b K then []
        else (s.callbacks K).map (fun c => (K, c, b))) := by
  induction m generalizing s with
  | nil => simp [mapLookup] at hK
  | cons kv rest ih =>
    rw [mapKeys_cons] at hnd
    simp at hnd
    rw [mapLookup] at hK
    by_cases hkv : kv.1 = K
    · rw [if_pos hkv] at hK
      cases hK
      subst hkv
      have hrest : mapLookup rest kv.1 = none :=
        (mapLookup_eq_none_iff rest kv.1).2 hnd.1
      simp only [resolveFold, List.filter_append]
      rw [resolveFold_trace_filter_none rest _ kv.1 hrest]
      rw [setStateCore_trace]
      by_cases hc : s.options.equalityFn (s.state kv.1) kv.2 kv.1 = true
      · simp [hc]
      · rw [if_neg hc]
        have hall : ∀ e ∈ (s.callbacks kv.1).map (fun c => ((kv.1 : κ), c, kv.2)),
            (decide (e.1 = kv.1)) = true := by
          intro e he
          simp [List.mem_map] at he
          rcases he with ⟨c', _, he2⟩
          rw [← he2]
          simp
        rw [List.filter_eq_self.2 hall]
        simp
    · rw [if_neg hkv] at hK
      simp only [resolveFold, List.filter_append]
      rw [setStateCore_trace_filter_ne s kv.1 K kv.2 hkv]
      rw [ih _ hnd.2 hK]
      rw [setStateCore_state_ne _ _ _ _ (fun hh => hkv hh.symm)]
      rw [setStateCore_options, setStateCore_callbacks]
      rfl

theorem resolveFold_state_at_some [DecidableEq κ] (m : List (κ × α))
    (s : Store κ α γ) (K : κ) (b : α) (hnd : (mapKeys m).Nodup)
    (hK : mapLookup m K = some b) :
    (resolveFold s m).1.state K =
      (if s.options.equalityFn (s.state K) b K then s.state K else b) := by
  induction m generalizing s with
  | nil => simp [mapLookup] at hK
  | cons kv rest ih =>
    rw [mapKeys_cons] at hnd
    simp at hnd
    rw [mapLookup] at hK
    by_cases hkv : kv.1 = K
    · rw [if_pos hkv] at hK
      cases hK
      subst hkv
      simp only [resolveFold]
      rw [resolveFold_state_not_mem rest _ kv.1 hnd.1]
      rw [setStateCore_state_self]
    · rw [if_neg hkv] at hK
      simp only [resolveFold]
      rw [ih _ hnd.2 hK]
      rw [setStateCore_state_ne _ _ _ _ (fun hh => hkv hh.symm)]
      rw [setStateCore_options]

theorem flagDeferred_state (s : Store κ α γ) :
    s._flagDeferredStateForResolution.state = s.state := by
  cases hb : s._awaitingUpdate <;> simp [Store._flagDeferredStateForResolution, hb]

theorem flagDeferred_options (s : Store κ α γ) :
    s._flagDeferredStateForResolution.options = s.options := by
  cases hb : s._awaitingUpdate <;> simp [Store._flagDeferredStateForResolution, hb]

theorem flagDeferred_callbacks (s : Store κ α γ) :
    s._flagDeferredStateForResolution.callbacks = s.callbacks := by
  cases hb : s._awaitingUpdate <;> simp [Store._flagDeferredStateForResolution, hb]

theorem flagDeferred_deferred (s : Store κ α γ) :
    s._flagDeferredStateForResolution._deferredState = s._deferredState := by
  cases hb : s._awaitingUpdate <;> simp [Store._flagDeferredStateForResolution, hb]

theorem setState_callbacks [DecidableEq κ] (s : Store κ α γ) (k : κ)
    (a : SetStateArgument α) : (s.setState k a).1.callbacks = s.callbacks := by
  cases hb : s.options.batchUpdates
  · simp [Store.setState, hb, setStateCore_callbacks]
  · simp [Store.setState, hb, flagDeferred_callbacks]

theorem setState_options [DecidableEq κ] (s : Store κ α γ) (k : κ)
    (a : SetStateArgument α) : (s.setState k a).1.options = s.options := by
  cases hb : s.options.batchUpdates
  · simp [Store.setState, hb, setStateCore_options]
  · simp [Store.setState, hb, flagDeferred_options]

theorem setState_state_ne [DecidableEq κ] (s : Store κ α γ) (k k' : κ)
    (a : SetStateArgument α) (h : k' ≠ k) :
    (s.setState k a).1.state k' = s.state k' := by
  cases hb : s.options.batchUpdates
  · simp [Store.setState, hb, setStateCore_state_ne _ _ _ _ h]
  · simp [Store.setState, hb, flagDeferred_state]

theorem setState_deferred_lookup_ne [DecidableEq κ] (s : Store κ α γ) (k k' : κ)
    (a : SetStateArgument α) (h : k' ≠ k) :
    mapLookup (s.setState k a).1._deferredState k' = mapLookup s._deferredState k' := by
  cases hb : s.options.batchUpdates
  · simp [Store.setState, hb, setStateCore_deferred]
  · simp [Store.setState, hb, flagDeferred_deferred, mapLookup_mapSet_ne _ _ _ _ h]

theorem setState_trace_mem_callbacks [DecidableEq κ] (s : Store κ α γ) (k k' : κ)
    (a : SetStateArgument α) (c : γ) (v' : α)
    (h : (k', c, v') ∈ (s.setState k a).2) : c ∈ s.callbacks k' := by
  cases hb : s.options.batchUpdates
  · simp only [Store.setState, hb, Bool.false_eq_true, if_false] at h
    have hh := (setStateCore_trace_mem s k k' c _ v').1 h
    rw [hh.1]
    exact hh.2.1
  · simp [Store.setState, hb] at h

theorem flush_callbacks [DecidableEq κ] (s : Store κ α γ) :
    (s.flush).1.callbacks = s.callbacks := by
  simp [Store.flush, Store._resolveDeferredState, resolveFold_callbacks]

theorem flush_options [DecidableEq κ] (s : Store κ α γ) :
    (s.flush).1.options = s.options := by
  simp [Store.flush, Store._resolveDeferredState, resolveFold_options]

theorem flush_deferred [DecidableEq κ] (s : Store κ α γ) :
    (s.flush).1._deferredState = [] := by
  simp [Store.flush, Store._resolveDeferredState]

theorem flush_state_of_lookup_none [DecidableEq κ] (s : Store κ α γ) (key : κ)
    (h : mapLookup s._deferredState key = none) :
    (s.flush).1.state key = s.state key := by
  simp only [Store.flush, Store._resolveDeferredState]
  exact resolveFold_state_not_mem _ _ _ ((mapLookup_eq_none_iff _ _).1 h)

theorem flush_trace_mem_callbacks [DecidableEq κ] (s : Store κ α γ) (k : κ) (c : γ)
    (v : α) (h : (k, c, v) ∈ (s.flush).2) : c ∈ s.callbacks k := by
  simp only [Store.flush, Store._resolveDeferredState] at h
  exact resolveFold_trace_mem _ _ _ _ _ h

theorem runOps_callbacks [DecidableEq κ] (ops : List (Op κ α)) (s : Store κ α γ) :
    (s.runOps ops).1.callbacks = s.callbacks := by
  induction ops generalizing s with
  | nil => rfl
  | cons op rest ih =>
    cases op with
    | set k a => simp [Store.runOps, ih, setState_callbacks]
    | flush => simp [Store.runOps, ih, flush_callbacks]

theorem runOps_trace_mem_callbacks [DecidableEq κ] (ops : List (Op κ α))
    (s : Store κ α γ) (k : κ) (c : γ) (v : α)
    (h : (k, c, v) ∈ (s.runOps ops).2) : c ∈ s.callbacks k := by
  induction ops generalizing s with
  | nil => simp [Store.runOps] at h
  | cons op rest ih =>
    cases op with
    | set k' a =>
      simp [Store.runOps] at h
      rcases h with h | h
      · exact setState_trace_mem_callbacks s k' k a c v h
      · have hh := ih _ h
        rwa [setState_callbacks] at hh
    | flush =>
      simp [Store.runOps] at h
      rcases h with h | h
      · exact flush_trace_mem_callbacks s k c v h
      · have hh := ih _ h
        rwa [flush_callbacks] at hh

theorem runOps_untouched_key [DecidableEq κ] (ops : List (Op κ α)) (s : Store κ α γ)
    (key : κ) (hdef : mapLookup s._deferredState key = none)
    (hops : ∀ op ∈ ops, opTouches key op = false) :
    (s.runOps ops).1.state key = s.state key ∧
      mapLookup (s.runOps ops).1._deferredState key = none := by
  induction ops generalizing s with
  | nil => exact ⟨rfl, hdef⟩
  | cons op rest ih =>
    have hop := hops op (List.mem_cons_self op rest)
    have hrest : ∀ op ∈ rest, opTouches key op = false :=
      fun o ho => hops o (List.mem_cons_of_mem op ho)
    cases op with
    | set k a =>
      have hk : key ≠ k := by
        simp [opTouches] at hop
        exact fun hh => hop hh.symm
      have h1 : (s.setState k a).1.state key = s.state key :=
        setState_state_ne s k key a hk
      have h2 : mapLookup (s.setState k a).1._deferredState key = none := by
        rw [setState_deferred_lookup_ne s k key a hk]
        exact hdef
      have := ih (s.setState k a).1 h2 hrest
      simp only [Store.runOps]
      exact ⟨this.1.trans h1, this.2⟩
    | flush =>
      have h1 : (s.flush).1.state key = s.state key :=
        flush_state_of_lookup_none s key hdef
      have h2 : mapLookup (s.flush).1._deferredState key = none := by
        rw [flush_deferred]
        rfl
      have := ih (s.flush).1 h2 hrest
      simp only [Store.runOps]
      exact ⟨this.1.trans h1, this.2⟩

theorem getState_of_state_none [DecidableEq κ] {β : Type} (s : Store κ (Option β) γ)
    (key : κ) (h1 : s.state key = none)
    (h2 : mapLookup s._deferredState key = none) : s.getState key = none := by
  simp [Store.getState, h2, h1]

theorem getState_of_deferred_some [DecidableEq κ] (s : Store κ α γ) (key : κ) (v : α)
    (h : mapLookup s._deferredState key = some v) : s.getState key = v := by
  simp [Store.getState, h]

theorem getState_of_deferred_nil [DecidableEq κ] (s : Store κ α γ) (key : κ)
    (h : s._deferredState = []) : s.getState key = s.state key := by
  simp [Store.getState, h, mapLookup]

theorem setState_batched_deferred [DecidableEq κ] (s : Store κ α γ) (k : κ)
    (a : SetStateArgument α) (hb : s.options.batchUpdates = true) :
    (s.setState k a).1._deferredState =
      mapSet s._deferredState k (s._resolveNewValue k a) := by
  simp [Store.setState, hb, flagDeferred_deferred]

theorem setState_batched_state [DecidableEq κ] (s : Store κ α γ) (k : κ)
    (a : SetStateArgument α) (hb : s.options.batchUpdates = true) :
    (s.setState k a).1.state = s.state := by
  simp [Store.setState, hb, flagDeferred_state]

theorem setState_batched_trace [DecidableEq κ] (s : Store κ α γ) (k : κ)
    (a : SetStateArgument α) (hb : s.options.batchUpdates = true) :
    (s.setState k a).2 = [] := by
  simp [Store.setState, hb]

theorem setStateCore_skip [DecidableEq κ] (s : Store κ α γ) (k : κ) (v : α)
    (h : s.options.equalityFn (s.state k) v k = true) : s._setState k v = (s, []) := by
  simp [Store._setState, h]

theorem flush_state_eq [DecidableEq κ] (s : Store κ α γ) :
    (s.flush).1.state = (resolveFold s s._deferredState).1.state := by
  simp [Store.flush, Store._resolveDeferredState]

theorem flush_trace_eq [DecidableEq κ] (s : Store κ α γ) :
    (s.flush).2 = (resolveFold s s._deferredState).2 := by
  simp [Store.flush, Store._resolveDeferredState]

theorem flush_flag [DecidableEq κ] (s : Store κ α γ) :
    (s._flagDeferredStateForResolution).flush = s.flush := by
  cases ha : s._awaitingUpdate
  · simp only [Store._flagDeferredStateForResolution, ha, Bool.false_eq_true, if_false]
    simp [Store.flush, Store._resolveDeferredState, resolveFold_awaiting_comm]
  · simp [Store._flagDeferredStateForResolution, ha]

theorem off_eq_of_not_mem [DecidableEq κ] [DecidableEq γ] (s : Store κ α γ) (K : κ)
    (c : γ) (h : c ∉ s.callbacks K) : s.off K c = s := by
  cases s with
  | mk st op cb df aw =>
    simp only [Store.off]
    congr 1
    funext k
    by_cases hk : k = K
    · subst hk
      simp only [if_pos rfl]
      exact setDelete_of_not_mem _ _ h
    · simp [hk]

theorem on_callbacks_self [DecidableEq κ] [DecidableEq γ] (s : Store κ α γ) (K : κ)
    (c : γ) : (s.on K c).callbacks K = setAdd (s.callbacks K) c := by
  simp [Store.on]

theorem on_callbacks_ne [DecidableEq κ] [DecidableEq γ] (s : Store κ α γ) (K k : κ)
    (c : γ) (h : k ≠ K) : (s.on K c).callbacks k = s.callbacks k := by
  simp [Store.on, h]

theorem on_state [DecidableEq κ] [DecidableEq γ] (s : Store κ α γ) (K : κ) (c : γ) :
    (s.on K c).state = s.state := by
  simp [Store.on]

theorem on_options [DecidableEq κ] [DecidableEq γ] (s : Store κ α γ) (K : κ) (c : γ) :
    (s.on K c).options = s.options := by
  simp [Store.on]

theorem off_callbacks_self [DecidableEq κ] [DecidableEq γ] (s : Store κ α γ) (K : κ)
    (c : γ) : (s.off K c).callbacks K = setDelete (s.callbacks K) c := by
  simp [Store.off]

theorem setStateCore_deferred_comm [DecidableEq κ] (s : Store κ α γ) (k : κ) (v : α)
    (d : List (κ × α)) :
    ({ s with _deferredState := d } : Store κ α γ)._setState k v =
      ({ (s._setState k v).1 with _deferredState := d }, (s._setState k v).2) := by
  cases hc : s.options.equalityFn (s.state k) v k <;> simp [Store._setState, hc]

theorem resolveFold_deferred_comm [DecidableEq κ] (m : List (κ × α)) (s : Store κ α γ)
    (d : List (κ × α)) :
    resolveFold ({ s with _deferredState := d }) m =
      ({ (resolveFold s m).1 with _deferredState := d }, (resolveFold s m).2) := by
  induction m generalizing s with
  | nil => rfl
  | cons kv rest ih =>
    simp [resolveFold, setStateCore_deferred_comm, ih]

theorem flush_eq [DecidableEq κ] (s : Store κ α γ) :
    s.flush =
      ({ (resolveFold s s._deferredState).1 with
          _deferredState := [], _awaitingUpdate := false },
        (resolveFold s s._deferredState).2) := rfl

theorem flush_append_skip [DecidableEq κ] (s : Store κ α γ) (K : κ) (v : α)
    (hknot : K ∉ mapKeys s._deferredState)
    (heq2 : s.options.equalityFn (s.state K) v K = true) :
    ({ s with _deferredState := s._deferredState ++ [(K, v)] } : Store κ α γ).flush =
      s.flush := by
  rw [flush_eq, flush_eq]
  have hd : ({ s with _deferredState := s._deferredState ++ [(K, v)] } :
      Store κ α γ)._deferredState = s._deferredState ++ [(K, v)] := rfl
  rw [hd, resolveFold_deferred_comm, resolveFold_append]
  have hskip : (resolveFold s s._deferredState).1._setState K v =
      ((resolveFold s s._deferredState).1, []) := by
    apply setStateCore_skip
    rw [resolveFold_options, resolveFold_state_not_mem _ _ _ hknot]
    exact heq2
  have htail : resolveFold (resolveFold s s._deferredState).1 [(K, v)] =
      ((resolveFold s s._deferredState).1, []) := by
    simp [resolveFold, hskip]
  rw [htail]
  simp

/-! ## The specified properties -/

/-- C1: a callback registered for key `K` is invoked, with the new value of
`K`, if and only if the committed write to `K` changes `state[K]` as judged
by `options.equalityFn`: an equality-judged commit invokes no callback, and
a change-judged commit invokes every callback registered for `K`. Stated for
the commit core `_setState` (the single commit path of both modes), for the
immediate-mode `setState` call, and for the flush commit of a batched write
pending for `K`. -/
theorem C1_callback_iff_committed_change [DecidableEq κ] (s : Store κ α γ) (K k' : κ)
    (c : γ) (v v' : α) :
    ((k', c, v') ∈ (s._setState K v).2 ↔
      (k' = K ∧ c ∈ s.callbacks K ∧ v' = v ∧
        s.options.equalityFn (s.state K) v K = false))
    ∧ (s.options.batchUpdates = false →
      ((k', c, v') ∈ (s.setState K (SetStateArgument.literal v)).2 ↔
        (k' = K ∧ c ∈ s.callbacks K ∧ v' = v ∧
          s.options.equalityFn (s.state K) v K = false)))
    ∧ ((mapKeys s._deferredState).Nodup → mapLookup s._deferredState K = some v →
      ((K, c, v') ∈ (s.flush).2 ↔
        (c ∈ s.callbacks K ∧ v' = v ∧
          s.options.equalityFn (s.state K) v K = false))) := by
  refine ⟨setStateCore_trace_mem s K k' c v v', ?_, ?_⟩
  · intro hb
    simp only [Store.setState, Store._resolveNewValue, hb, Bool.false_eq_true, if_false]
    exact setStateCore_trace_mem s K k' c v v'
  · intro hnd hK
    have hfil : ((K, c, v') ∈ (s.flush).2) ↔
        ((K, c, v') ∈ ((s.flush).2.filter (fun e => decide (e.1 = K)))) := by
      constructor
      · intro h
        exact List.mem_filter.2 ⟨h, by simp⟩
      · intro h
        exact (List.mem_filter.1 h).1
    rw [hfil, flush_trace_eq, resolveFold_trace_filter_some _ _ _ _ hnd hK]
    by_cases hc : s.options.equalityFn (s.state K) v K = true
    · simp [hc]
    · have hc2 : s.options.equalityFn (s.state K) v K = false := by
        cases h2 : s.options.equalityFn (s.state K) v K
        · rfl
        · exact absurd h2 hc
      rw [if_neg hc]
      constructor
      · intro hm
        rcases List.mem_map.1 hm with ⟨c2, hc3, he⟩
        have h1 : c2 = c := congrArg (fun e : Event κ α γ => e.2.1) he
        have h2 : v = v' := congrArg (fun e : Event κ α γ => e.2.2) he
        exact ⟨h1 ▸ hc3, h2.symm, hc2⟩
      · rintro ⟨h1, h2, h3⟩
        exact List.mem_map.2 ⟨c, h1, by rw [h2]⟩

/-- Witness for C1: in `sampleImmediate`, the registered callback `7` is
invoked with the new value `5` by `setState(0, 5)`, and in
`sampleBatchedPending` (pending `0 ↦ 5`) by the scheduled flush. -/
theorem C1_witness :
    (((0, 7, 5) : Event Nat Nat Nat) ∈
      (sampleImmediate.setState 0 (SetStateArgument.literal 5)).2)
    ∧ (((0, 7, 5) : Event Nat Nat Nat) ∈ (sampleBatchedPending.flush).2) :=
  ⟨((C1_callback_iff_committed_change sampleImmediate 0 0 7 5 5).2.1 rfl).2
      ⟨rfl, by decide, rfl, by decide⟩,
    ((C1_callback_iff_committed_change sampleBatchedPending 0 0 7 5 5).2.2
      (by decide) (by decide)).2 ⟨by decide, rfl, by decide⟩⟩

/-- C5: a callable `setState` argument is always treated as an updater,
never stored literally: `_resolveNewValue` applies it to the current
logical value `getState(K)`, and the whole `setState` call behaves exactly
like the literal call with that pre-resolved value (so the resolution
happens before any equality check or commit). -/
theorem C5_callable_is_updater [DecidableEq κ] (s : Store κ α γ) (K : κ) (f : α → α) :
    s._resolveNewValue K (SetStateArgument.updater f) = f (s.getState K)
    ∧ s.setState K (SetStateArgument.updater f) =
        s.setState K (SetStateArgument.literal (f (s.getState K))) :=
  ⟨rfl, rfl⟩

/-- C7: `on(K, c)` de-duplicates by identity — registering the same
callback twice leaves the store exactly as registering it once — and a
single committed change to `K` invokes that callback exactly once. -/
theorem C7_on_dedup [DecidableEq κ] [DecidableEq α] [DecidableEq γ] (s : Store κ α γ)
    (K : κ) (c : γ) (v : α) (hnd : (s.callbacks K).Nodup)
    (hne : s.options.equalityFn (s.state K) v K = false) :
    (s.on K c).on K c = s.on K c
    ∧ countOcc ((K, c, v) : Event κ α γ) (((s.on K c).on K c)._setState K v).2 = 1 := by
  constructor
  · cases s with
    | mk st op cb df aw =>
      simp only [Store.on]
      congr 1
      funext k
      by_cases hk : k = K
      · subst hk
        simp [setAdd_idem]
      · simp [hk]
  · have hcb2 : ((s.on K c).on K c).callbacks K = setAdd (s.callbacks K) c := by
      rw [on_callbacks_self, on_callbacks_self, setAdd_idem]
    have hst : ((s.on K c).on K c).state = s.state := by
      rw [on_state, on_state]
    have hop : ((s.on K c).on K c).options = s.options := by
      rw [on_options, on_options]
    have htr : (((s.on K c).on K c)._setState K v).2 =
        (setAdd (s.callbacks K) c).map (fun c2 => (K, c2, v)) := by
      rw [setStateCore_trace, hst, hop, hcb2]
      simp [hne]
    rw [htr]
    have hinj : Function.Injective (fun c2 : γ => ((K, c2, v) : Event κ α γ)) := by
      intro x y hxy
      simpa using hxy
    rw [countOcc_map_inj _ hinj]
    exact countOcc_eq_one_of_nodup_of_mem _ _ (nodup_setAdd _ _ hnd) (mem_setAdd_self _ _)

/-- Witness for C7: in `sampleImmediate`, registering callback `7` for key
`0` twice equals registering once, and `_setState(0, 5)` then invokes it
exactly once. -/
theorem C7_witness :
    (sampleImmediate.on 0 7).on 0 7 = sampleImmediate.on 0 7
    ∧ countOcc ((0, 7, 5) : Event Nat Nat Nat)
        (((sampleImmediate.on 0 7).on 0 7)._setState 0 5).2 = 1 :=
  C7_on_dedup sampleImmediate 0 7 5 (by decide) (by decide)

/-- C8: the public operations are total over their documented domains:
reading a key never present in the defaults and never written by any
subsequent operation yields the absent value `undefined` (`none`), and
`off(K, c)` for a callback not registered for `K` (in particular when `K`
has no listener set at all) leaves the store exactly unchanged. -/
theorem C8_operations_total {κ α β γ : Type} [DecidableEq κ] [DecidableEq β]
    [DecidableEq γ] :
    (∀ (defaults : List (κ × β)) (options : StoreOptionsArg κ (Option β)) (key : κ)
        (ops : List (Op κ (Option β))),
      mapLookup defaults key = none →
      (∀ op ∈ ops, opTouches key op = false) →
      (((Store.fromDefaults defaults options : Store κ (Option β) γ)).runOps ops).1.getState
          key = none)
    ∧ (∀ (s : Store κ α γ) (K : κ) (c : γ), c ∉ s.callbacks K → s.off K c = s) := by
  constructor
  · intro defaults options key ops hdef hops
    have hinv := runOps_untouched_key ops
      (Store.fromDefaults defaults options : Store κ (Option β) γ) key rfl hops
    exact getState_of_state_none _ key (hinv.1.trans hdef) hinv.2
  · intro s K c hc
    exact off_eq_of_not_mem s K c hc

/-- Witness for C8: a store built from empty defaults reads `none` at key
`0` after no operations, and `off(0, 9)` on `sampleImmediate` (where `9` is
not registered) is a no-op. -/
theorem C8_witness :
    (((Store.fromDefaults ([] : List (Nat × Nat)) ⟨none, none⟩ : Store Nat (Option Nat)
        Nat)).runOps []).1.getState 0 = none
    ∧ sampleImmediate.off 0 9 = sampleImmediate :=
  ⟨(@C8_operations_total Nat Nat Nat Nat _ _ _).1 [] ⟨none, none⟩ 0 []
      rfl (by intro op hop; simp at hop),
    (@C8_operations_total Nat Nat Nat Nat _ _ _).2 sampleImmediate 0 9 (by decide)⟩

/-- C10: `setState(K, v)` is frame-local: it leaves the committed value of
every other key unchanged, leaves the pending deferred entry of every other
key unchanged, and leaves the listener registry of every key (including
`K`) untouched; the flush step likewise never modifies the listener
registry (only `on`/`off` — and `subscribe`'s returned function, which is
`off` — do). -/
theorem C10_setState_frame [DecidableEq κ] (s : Store κ α γ) (K : κ)
    (a : SetStateArgument α) :
    (∀ k, k ≠ K → (s.setState K a).1.state k = s.state k)
    ∧ (∀ k, k ≠ K →
        mapLookup (s.setState K a).1._deferredState k = mapLookup s._deferredState k)
    ∧ (s.setState K a).1.callbacks = s.callbacks
    ∧ (s.flush).1.callbacks = s.callbacks :=
  ⟨fun k hk => setState_state_ne s K k a hk,
    fun k hk => setState_deferred_lookup_ne s K k a hk,
    setState_callbacks s K a,
    flush_callbacks s⟩

/-- Witness for C10: in `sampleImmediate`, `setState(0, 5)` leaves key `1`'s
committed value and the listener registry unchanged. -/
theorem C10_witness :
    (sampleImmediate.setState 0 (SetStateArgument.literal 5)).1.state 1 =
      sampleImmediate.state 1
    ∧ (sampleImmediate.setState 0 (SetStateArgument.literal 5)).1.callbacks =
      sampleImmediate.callbacks :=
  ⟨(C10_setState_frame sampleImmediate 0 (SetStateArgument.literal 5)).1 1 (by decide),
    (C10_setState_frame sampleImmediate 0 (SetStateArgument.literal 5)).2.2.1⟩

/-- C3: with batching enabled and the default equality function, two
synchronous `setState(K, p => p + 1)` calls starting from logical value `n`
chain through the pending state: the first leaves `getState K = n + 1`
(which is exactly what the second updater receives, by C5's resolution
rule), the second leaves `getState K = n + 2` already before the flush, and
after the flush `getState K` is still `n + 2`. -/
theorem C3_batched_updater_chaining [DecidableEq κ] (s : Store κ Int γ) (K : κ)
    (n : Int) (hb : s.options.batchUpdates = true)
    (he : s.options.equalityFn = defaultEqualityFn)
    (hnd : (mapKeys s._deferredState).Nodup)
    (hn : s.getState K = n) :
    ((s.setState K (SetStateArgument.updater (fun p => p + 1))).1.getState K = n + 1)
    ∧ (((s.setState K (SetStateArgument.updater (fun p => p + 1))).1.setState K
        (SetStateArgument.updater (fun p => p + 1))).1.getState K = n + 2)
    ∧ ((((s.setState K (SetStateArgument.updater (fun p => p + 1))).1.setState K
        (SetStateArgument.updater (fun p => p + 1))).1.flush).1.getState K = n + 2) := by
  set s1 : Store κ Int γ :=
    (s.setState K (SetStateArgument.updater (fun p => p + 1))).1 with hs1
  set s2 : Store κ Int γ :=
    (s1.setState K (SetStateArgument.updater (fun p => p + 1))).1 with hs2
  have hres1 : s._resolveNewValue K (SetStateArgument.updater (fun p => p + 1)) =
      n + 1 := by
    show (fun p : Int => p + 1) (s.getState K) = n + 1
    rw [hn]
  have hd1 : s1._deferredState = mapSet s._deferredState K (n + 1) := by
    rw [hs1, setState_batched_deferred s K _ hb, hres1]
  have hg1 : s1.getState K = n + 1 := by
    apply getState_of_deferred_some
    rw [hd1]
    exact mapLookup_mapSet_self _ _ _
  have hb1 : s1.options.batchUpdates = true := by
    rw [hs1, setState_options]
    exact hb
  have hres2 : s1._resolveNewValue K (SetStateArgument.updater (fun p => p + 1)) =
      n + 2 := by
    show (fun p : Int => p + 1) (s1.getState K) = n + 2
    rw [hg1]
    ring
  have hd2 : s2._deferredState = mapSet s1._deferredState K (n + 2) := by
    rw [hs2, setState_batched_deferred s1 K _ hb1, hres2]
  have hg2 : s2.getState K = n + 2 := by
    apply getState_of_deferred_some
    rw [hd2]
    exact mapLookup_mapSet_self _ _ _
  have hnd2 : (mapKeys s2._deferredState).Nodup := by
    rw [hd2, hd1]
    exact mapKeys_mapSet_nodup _ _ _ (mapKeys_mapSet_nodup _ _ _ hnd)
  have hlook2 : mapLookup s2._deferredState K = some (n + 2) := by
    rw [hd2]
    exact mapLookup_mapSet_self _ _ _
  have hop2 : s2.options = s.options := by
    rw [hs2, setState_options, hs1, setState_options]
  have hstate3 : (resolveFold s2 s2._deferredState).1.state K = n + 2 := by
    rw [resolveFold_state_at_some _ _ _ _ hnd2 hlook2, hop2, he]
    by_cases hcs : s2.state K = n + 2
    · simp [defaultEqualityFn, hcs]
    · simp [defaultEqualityFn, hcs]
  refine ⟨hg1, hg2, ?_⟩
  rw [getState_of_deferred_nil (s2.flush).1 K (flush_deferred s2)]
  rw [show (s2.flush).1.state = (resolveFold s2 s2._deferredState).1.state from
    flush_state_eq s2]
  exact hstate3

/-- Witness for C3: `sampleBatchedInt` (all keys `0`, batched, default
equality): two `p => p + 1` updates on key `0` then the flush. -/
theorem C3_witness :
    ((sampleBatchedInt.setState 0
        (SetStateArgument.updater (fun p => p + 1))).1.getState 0 = 0 + 1)
    ∧ (((sampleBatchedInt.setState 0
        (SetStateArgument.updater (fun p => p + 1))).1.setState 0
        (SetStateArgument.updater (fun p => p + 1))).1.getState 0 = 0 + 2)
    ∧ ((((sampleBatchedInt.setState 0
        (SetStateArgument.updater (fun p => p + 1))).1.setState 0
        (SetStateArgument.updater (fun p => p + 1))).1.flush).1.getState 0 = 0 + 2) :=
  C3_batched_updater_chaining sampleBatchedInt 0 0 rfl rfl (by decide) rfl

/-- C2 is false as universally stated: in `sampleBatched` (committed value
`0` at key `0`, callback `7` registered), the same-tick sequence
`setState(0, 1); setState(0, 0)` followed by the flush invokes no listener
at all — the coalesced final value `0` is judged equal to the committed
value, so the flush commits nothing — even though the claim demands exactly
one invocation with argument `b = 0`. -/
theorem C2_counterexample :
    (sampleBatched.setState 0 (SetStateArgument.literal 1)).2 = []
    ∧ ((sampleBatched.setState 0 (SetStateArgument.literal 1)).1.setState 0
        (SetStateArgument.literal 0)).2 = []
    ∧ (((sampleBatched.setState 0 (SetStateArgument.literal 1)).1.setState 0
        (SetStateArgument.literal 0)).1.flush).2 = []
    ∧ sampleBatched.callbacks 0 = [7]
    ∧ sampleBatched.getState 0 = 0 :=
  ⟨rfl, rfl, rfl, rfl, rfl⟩

/-- C2 (amended): with batching enabled, after `setState(K, a)` then
`setState(K, b)` in the same tick, `getState K = b` holds already before
the flush and neither call invokes any listener; and provided the equality
function judges `b` a change from the committed value of `K`, the single
scheduled flush invokes each listener registered for `K` exactly once, with
argument `b`. (The listener-set and deferred-key `Nodup` hypotheses are the
representation invariants of the JavaScript `Set` and `Map`.) -/
theorem C2_amended [DecidableEq κ] [DecidableEq α] [DecidableEq γ] (s : Store κ α γ)
    (K : κ) (a b : α)
    (hb : s.options.batchUpdates = true)
    (hnd : (mapKeys s._deferredState).Nodup)
    (hcb : (s.callbacks K).Nodup)
    (hne : s.options.equalityFn (s.state K) b K = false) :
    (s.setState K (SetStateArgument.literal a)).2 = []
    ∧ ((s.setState K (SetStateArgument.literal a)).1.setState K
        (SetStateArgument.literal b)).2 = []
    ∧ ((s.setState K (SetStateArgument.literal a)).1.setState K
        (SetStateArgument.literal b)).1.getState K = b
    ∧ ((((s.setState K (SetStateArgument.literal a)).1.setState K
        (SetStateArgument.literal b)).1.flush).2.filter (fun e => decide (e.1 = K)))
        = (s.callbacks K).map (fun c => (K, c, b))
    ∧ ∀ c ∈ s.callbacks K,
        countOcc ((K, c, b) : Event κ α γ)
          ((((s.setState K (SetStateArgument.literal a)).1.setState K
            (SetStateArgument.literal b)).1.flush).2) = 1 := by
  set s1 : Store κ α γ := (s.setState K (SetStateArgument.literal a)).1 with hs1
  set s2 : Store κ α γ := (s1.setState K (SetStateArgument.literal b)).1 with hs2
  have hb1 : s1.options.batchUpdates = true := by
    rw [hs1, setState_options]
    exact hb
  have hd1 : s1._deferredState = mapSet s._deferredState K a := by
    rw [hs1, setState_batched_deferred s K _ hb]
    rfl
  have hd2 : s2._deferredState = mapSet (mapSet s._deferredState K a) K b := by
    rw [hs2, setState_batched_deferred s1 K _ hb1, hd1]
    rfl
  have hlook : mapLookup s2._deferredState K = some b := by
    rw [hd2]
    exact mapLookup_mapSet_self _ _ _
  have hnd2 : (mapKeys s2._deferredState).Nodup := by
    rw [hd2]
    exact mapKeys_mapSet_nodup _ _ _ (mapKeys_mapSet_nodup _ _ _ hnd)
  have hst2 : s2.state = s.state := by
    rw [hs2, setState_batched_state s1 K _ hb1, hs1, setState_batched_state s K _ hb]
  have hop2 : s2.options = s.options := by
    rw [hs2, setState_options, hs1, setState_options]
  have hcb2 : s2.callbacks = s.callbacks := by
    rw [hs2, setState_callbacks, hs1, setState_callbacks]
  have hfil : ((s2.flush).2.filter (fun e => decide (e.1 = K))) =
      (s.callbacks K).map (fun c => (K, c, b)) := by
    rw [flush_trace_eq, resolveFold_trace_filter_some _ _ _ _ hnd2 hlook]
    rw [hst2, hop2, hcb2, if_neg (by simp [hne])]
  refine ⟨setState_batched_trace s K _ hb, setState_batched_trace s1 K _ hb1,
    getState_of_deferred_some _ _ _ hlook, hfil, ?_⟩
  intro c hc
  rw [← countOcc_filter (fun e => decide (e.1 = K)) ((K, c, b) : Event κ α γ)
    ((s2.flush).2) (by simp)]
  rw [hfil]
  have hinj : Function.Injective (fun c2 : γ => ((K, c2, b) : Event κ α γ)) := by
    intro x y hxy
    simpa using hxy
  rw [countOcc_map_inj _ hinj]
  exact countOcc_eq_one_of_nodup_of_mem _ _ hcb hc

/-- Witness for C2 (amended): in `sampleBatched`, `setState(0, 5)` then
`setState(0, 1)` yields `getState 0 = 1` before the flush, and the flush
invokes callback `7` exactly once with `1`. -/
theorem C2_witness :
    ((sampleBatched.setState 0 (SetStateArgument.literal 5)).1.setState 0
        (SetStateArgument.literal 1)).1.getState 0 = 1
    ∧ countOcc ((0, 7, 1) : Event Nat Nat Nat)
        ((((sampleBatched.setState 0 (SetStateArgument.literal 5)).1.setState 0
          (SetStateArgument.literal 1)).1.flush).2) = 1 :=
  ⟨(C2_amended sampleBatched 0 5 1 rfl (by decide) (by decide) (by decide)).2.2.1,
    (C2_amended sampleBatched 0 5 1 rfl (by decide) (by decide)
      (by decide)).2.2.2.2 7 (by decide)⟩

/-- C4 is false as stated for batched mode: `sampleCoarse`'s equality
function judges every write equal to the current value, yet after
`setState(0, 5)` the deferred-aware `getState 0` returns `5`, not the
previous `0` — the batched path records the pending value without
consulting the equality function. -/
theorem C4_counterexample :
    sampleCoarse.options.equalityFn (sampleCoarse.getState 0) 5 0 = true
    ∧ sampleCoarse.getState 0 = 0
    ∧ (sampleCoarse.setState 0 (SetStateArgument.literal 5)).1.getState 0 = 5
    ∧ (5 : Nat) ≠ 0 :=
  ⟨rfl, rfl, rfl, by decide⟩

/-- C4 (amended): if `equalityFn(current, V, K)` holds for the current
logical value, then in immediate mode `setState(K, V)` is a complete no-op
(the store is unchanged and no subscriber is invoked); in batched mode —
provided `V` actually equals the current logical value, which is guaranteed
under the default equality function but not under a coarser one — the call
invokes no subscriber, leaves `getState K` unchanged, and the scheduled
flush behaves exactly (same notifications, same resulting store) as if the
call had not happened. -/
theorem C4_equal_write_noop [DecidableEq κ] (s : Store κ α γ) (K : κ) (v : α)
    (heq : s.options.equalityFn (s.getState K) v K = true) :
    (s.options.batchUpdates = false → s._deferredState = [] →
      s.setState K (SetStateArgument.literal v) = (s, []))
    ∧ (s.options.batchUpdates = true → v = s.getState K →
      (s.setState K (SetStateArgument.literal v)).2 = []
      ∧ (s.setState K (SetStateArgument.literal v)).1.getState K = s.getState K
      ∧ (s.setState K (SetStateArgument.literal v)).1.flush = s.flush) := by
  constructor
  · intro hb hdef
    have hgs : s.getState K = s.state K := getState_of_deferred_nil s K hdef
    have heq2 : s.options.equalityFn (s.state K) v K = true := by
      rw [← hgs]
      exact heq
    simp only [Store.setState, hb, Bool.false_eq_true, if_false]
    exact setStateCore_skip s K v heq2
  · intro hb hv
    refine ⟨setState_batched_trace s K _ hb, ?_, ?_⟩
    · have h1 : (s.setState K (SetStateArgument.literal v)).1.getState K = v := by
        apply getState_of_deferred_some
        rw [setState_batched_deferred s K _ hb]
        exact mapLookup_mapSet_self _ _ _
      rw [h1]
      exact hv
    · have hs2 : (s.setState K (SetStateArgument.literal v)).1 =
          ({ s with _deferredState := mapSet s._deferredState K v } :
            Store κ α γ)._flagDeferredStateForResolution := by
        simp [Store.setState, hb]
        rfl
      rw [hs2, flush_flag]
      cases hK : mapLookup s._deferredState K with
      | some w =>
        have hvw : v = w := by
          rw [hv, getState_of_deferred_some s K w hK]
        rw [hvw, mapSet_eq_self_of_lookup _ _ _ hK]
      | none =>
        have hknot := (mapLookup_eq_none_iff _ _).1 hK
        rw [mapSet_eq_append_of_not_mem _ _ _ hknot]
        apply flush_append_skip s K v hknot
        have hgs : s.getState K = s.state K := by
          simp [Store.getState, hK]
        rw [← hgs]
        exact heq

/-- Witness for C4 (amended): `setState(0, 0)` is a no-op on
`sampleImmediate` (immediate mode), and on `sampleBatched` it invokes
nobody, keeps `getState 0`, and leaves the flush unaffected. -/
theorem C4_witness :
    sampleImmediate.setState 0 (SetStateArgument.literal 0) = (sampleImmediate, [])
    ∧ ((sampleBatched.setState 0 (SetStateArgument.literal 0)).2 = []
      ∧ (sampleBatched.setState 0 (SetStateArgument.literal 0)).1.getState 0 =
        sampleBatched.getState 0
      ∧ (sampleBatched.setState 0 (SetStateArgument.literal 0)).1.flush =
        sampleBatched.flush) :=
  ⟨(C4_equal_write_noop sampleImmediate 0 0 (by decide)).1 rfl rfl,
    (C4_equal_write_noop sampleBatched 0 0 (by decide)).2 rfl rfl⟩

/-- C6 is false as universally stated: in `c6Base`, callback `7` is
registered for key `1`, and `subscribe(0, 7)` followed by one call of the
returned unsubscribe function (giving `c6After`) only removes the key-`0`
registration — the subsequent `setState(1, 5)` still invokes callback `7`. -/
theorem C6_counterexample :
    (c6After.setState 1 (SetStateArgument.literal 5)).2 = [(1, 7, 5)]
    ∧ ((1, 7, 5) : Event Nat Nat Nat) ∈
      (c6After.setState 1 (SetStateArgument.literal 5)).2 :=
  ⟨rfl, by decide⟩

/-- C6 (amended): calling the function returned by `subscribe(K, c)` twice
leaves the store exactly as calling it once; and after it has been called,
no sequence of subsequent `setState` calls and flushes ever invokes `c` as
a listener of `K` (registrations of `c` for other keys are untouched and
may still fire). -/
theorem C6_unsubscribe_idempotent [DecidableEq κ] [DecidableEq γ] (s : Store κ α γ)
    (K : κ) (c : γ) (hnd : (s.callbacks K).Nodup) :
    ((s.subscribe K c).2 ((s.subscribe K c).2 (s.subscribe K c).1) =
      (s.subscribe K c).2 (s.subscribe K c).1)
    ∧ ∀ (ops : List (Op κ α)) (v : α),
        ((K, c, v) : Event κ α γ) ∉
          (((s.subscribe K c).2 (s.subscribe K c).1).runOps ops).2 := by
  have hsub2 : ∀ t : Store κ α γ, (s.subscribe K c).2 t = t.off K c := fun t => rfl
  have hnotmem : c ∉ ((s.on K c).off K c).callbacks K := by
    rw [off_callbacks_self, on_callbacks_self]
    exact not_mem_setDelete _ _ (nodup_setAdd _ _ hnd)
  constructor
  · rw [hsub2, hsub2]
    exact off_eq_of_not_mem _ _ _ hnotmem
  · intro ops v hmem
    rw [hsub2] at hmem
    exact hnotmem (runOps_trace_mem_callbacks ops _ K c v hmem)

/-- Witness for C6 (amended): subscribing `9` to key `0` of
`sampleImmediate` and unsubscribing: the second unsubscribe call is a
no-op, and a subsequent `setState(0, 5)` step does not invoke `9`. -/
theorem C6_witness :
    ((sampleImmediate.subscribe 0 9).2 ((sampleImmediate.subscribe 0 9).2
        (sampleImmediate.subscribe 0 9).1) =
      (sampleImmediate.subscribe 0 9).2 (sampleImmediate.subscribe 0 9).1)
    ∧ ((0, 9, 5) : Event Nat Nat Nat) ∉
        (((sampleImmediate.subscribe 0 9).2 (sampleImmediate.subscribe 0 9).1).runOps
          [Op.set 0 (SetStateArgument.literal 5)]).2 :=
  ⟨(C6_unsubscribe_idempotent sampleImmediate 0 9 (by decide)).1,
    (C6_unsubscribe_idempotent sampleImmediate 0 9 (by decide)).2
      [Op.set 0 (SetStateArgument.literal 5)] 5⟩

/-- C9 is false as stated: in `sampleJS` (every key `undefined`), the store
is non-null yet `useStoreValue`'s initial render state is the `null`
sentinel, not `getState 0 = undefined` — `?? null` collapses a nullish read
even when the store exists. So the seed is not `getState(K)` whenever the
store is non-null, and `null` is not used exactly when the store is null. -/
theorem C9_counterexample :
    useStoreValueInitial (some sampleJS) 0 = JSVal.null
    ∧ sampleJS.getState 0 = JSVal.undefined
    ∧ JSVal.null ≠ JSVal.undefined
    ∧ useStoreValueInitial (some sampleJS) 0 ≠ sampleJS.getState 0 :=
  ⟨rfl, rfl, by decide, by decide⟩

/-- C9 (amended): `useStoreValue` seeds its local render state with the
`null` sentinel when the store is null; with a non-null store it seeds from
`getState(key)` when that value is not nullish, and with the `null`
sentinel exactly when the store is null or `getState(key)` is nullish
(`undefined` or `null`). -/
theorem C9_seed [DecidableEq κ] (st : Store κ JSVal γ) (key : κ) :
    useStoreValueInitial (γ := γ) none key = JSVal.null
    ∧ (isNullish (st.getState key) = true →
        useStoreValueInitial (some st) key = JSVal.null)
    ∧ (isNullish (st.getState key) = false →
        useStoreValueInitial (some st) key = st.getState key)
    ∧ (useStoreValueInitial (some st) key = JSVal.null ↔
        isNullish (st.getState key) = true) := by
  refine ⟨rfl, ?_, ?_, ?_⟩
  · intro h
    simp [useStoreValueInitial, h]
  · intro h
    simp [useStoreValueInitial, h]
  · constructor
    · intro h
      by_cases hn : isNullish (st.getState key) = true
      · exact hn
      · have hn2 : isNullish (st.getState key) = false := by
          cases h2 : isNullish (st.getState key)
          · rfl
          · exact absurd h2 hn
        have hg : useStoreValueInitial (some st) key = st.getState key := by
          simp [useStoreValueInitial, hn2]
        rw [h] at hg
        rw [← hg] at hn2
        simp [isNullish] at hn2
    · intro h
      simp [useStoreValueInitial, h]

/-- Witness for C9 (amended): on `sampleJS`, the nullish read at key `0`
seeds the `null` sentinel. -/
theorem C9_witness : useStoreValueInitial (some sampleJS) 0 = JSVal.null :=
  (C9_seed sampleJS 0).2.1 (by decide)

end GranularStore
